import Mathlib

/-!
Verification of the `ilp-protocol-stream` repository (STREAM transport
protocol).  Shallow embedding of the packet/frame codec (src/protocol.ts and
the packet module), AES-GCM wrappers (src/crypto.ts), the receipt codec
(src/util/receipt.ts), the `OffsetSorter` reassembler and the server address
generation (src/index.ts).

Buffers are modelled as `List Nat` of byte values; unbounded JavaScript
`BigNumber` integers are modelled as `Nat`.  Node's cryptographic primitives
(HMAC-SHA256, AES-256-GCM) are external to the repository and are taken as
parameters of the definitions that call them.
-/

/-! ## Byte-level utilities (big-endian integer encoding, as used by
`oer-utils` for `writeUInt` / `writeVarUInt`). -/

/-- Minimal big-endian byte representation, via structural fuel so the
definition reduces in the kernel; `toBytesBE` instantiates the fuel. -/
def toBytesBEFuel : Nat → Nat → List Nat
  | 0, _ => []
  | _fuel + 1, 0 => []
  | fuel + 1, n + 1 => toBytesBEFuel fuel ((n + 1) / 256) ++ [(n + 1) % 256]

/-- Minimal big-endian bytes of `n` (empty for 0). -/
def toBytesBE (n : Nat) : List Nat := toBytesBEFuel n n

/-- Big-endian interpretation of a byte list (`Reader.readUInt`). -/
def fromBytesBE : List Nat → Nat
  | [] => 0
  | b :: rest => b * 256 ^ rest.length + fromBytesBE rest

/-- Fixed-width big-endian encoding (`Writer.writeUInt64` writes 8 bytes). -/
def fixedBytesBE : Nat → Nat → List Nat
  | 0, _ => []
  | w + 1, n => fixedBytesBE w (n / 256) ++ [n % 256]

theorem toBytesBEFuel_congr :
    ∀ (n f₁ f₂ : Nat), n ≤ f₁ → n ≤ f₂ →
      toBytesBEFuel f₁ n = toBytesBEFuel f₂ n := by
  intro n
  induction n using Nat.strong_induction_on with
  | _ n ih =>
    intro f₁ f₂ h₁ h₂
    cases n with
    | zero => cases f₁ <;> cases f₂ <;> rfl
    | succ m =>
      cases f₁ with
      | zero => omega
      | succ g₁ =>
        cases f₂ with
        | zero => omega
        | succ g₂ =>
          simp only [toBytesBEFuel]
          have hdiv : (m + 1) / 256 < m + 1 :=
            Nat.div_lt_self (Nat.succ_pos m) (by norm_num)
          rw [ih ((m + 1) / 256) hdiv g₁ g₂ (by omega) (by omega)]

/-- Characteristic unfolding equation of `toBytesBE`. -/
theorem toBytesBE_def (n : Nat) :
    toBytesBE n = if n = 0 then [] else toBytesBE (n / 256) ++ [n % 256] := by
  cases n with
  | zero => rfl
  | succ m =>
    have hdiv : (m + 1) / 256 < m + 1 :=
      Nat.div_lt_self (Nat.succ_pos m) (by norm_num)
    simp only [toBytesBE, toBytesBEFuel, Nat.succ_ne_zero, if_false]
    rw [toBytesBEFuel_congr ((m + 1) / 256) m ((m + 1) / 256) (by omega) (by omega)]

theorem fromBytesBE_append (a b : List Nat) :
    fromBytesBE (a ++ b) = fromBytesBE a * 256 ^ b.length + fromBytesBE b := by
  induction a with
  | nil => simp [fromBytesBE]
  | cons x a ih =>
    simp only [List.cons_append, fromBytesBE, List.append_eq, List.length_append,
      ih, pow_add]
    ring

theorem fromBytesBE_toBytesBE (n : Nat) : fromBytesBE (toBytesBE n) = n := by
  induction n using Nat.strong_induction_on with
  | _ n ih =>
    rw [toBytesBE_def]
    by_cases h : n = 0
    · simp [h, fromBytesBE]
    · have hdiv : n / 256 < n := Nat.div_lt_self (Nat.pos_of_ne_zero h) (by norm_num)
      rw [if_neg h, fromBytesBE_append, ih (n / 256) hdiv]
      simp [fromBytesBE]
      omega

theorem fromBytesBE_fixedBytesBE (w n : Nat) :
    fromBytesBE (fixedBytesBE w n) = n % 256 ^ w := by
  induction w generalizing n with
  | zero => simp [fixedBytesBE, fromBytesBE, Nat.mod_one]
  | succ w ih =>
    rw [fixedBytesBE, fromBytesBE_append, ih]
    simp only [fromBytesBE, List.length_nil, pow_zero, mul_one, Nat.add_zero]
    rw [pow_succ (256 : Nat) w, Nat.mul_comm (256 ^ w) 256, Nat.mod_mul]
    simp [List.length_singleton]
    omega

theorem length_fixedBytesBE (w n : Nat) : (fixedBytesBE w n).length = w := by
  induction w generalizing n with
  | zero => rfl
  | succ w ih => simp [fixedBytesBE, ih]

theorem toBytesBE_ne_nil (n : Nat) (h : n ≠ 0) : toBytesBE n ≠ [] := by
  rw [toBytesBE_def, if_neg h]
  simp

/-! ## OER primitives from `oer-utils` (`Reader` / `Writer`).

A reader is modelled as a function from the remaining byte list to
`Option (value × rest)`; a writer produces the byte list it appends. -/

/-- Model of `Reader.readUInt8`: consume one byte. -/
def readUInt8 : List Nat → Option (Nat × List Nat)
  | [] => none
  | b :: rest => some (b, rest)

/-- Model of `Reader.read(n)`: consume exactly `n` bytes. -/
def readOctets (k : Nat) (l : List Nat) : Option (List Nat × List Nat) :=
  if k ≤ l.length then some (l.take k, l.drop k) else none

/-- OER length determinant as written by `Writer.createVarOctetString`:
short form for lengths up to 127, otherwise `0x80 + numBytes` followed by the
minimal big-endian bytes of the length. -/
def encodeLengthDeterminant (n : Nat) : List Nat :=
  if n ≤ 127 then [n] else (128 + (toBytesBE n).length) :: toBytesBE n

/-- OER length determinant as read by `Reader.readLengthPrefixed` sources. -/
def readLengthDeterminant : List Nat → Option (Nat × List Nat)
  | [] => none
  | b :: rest =>
    if b ≤ 127 then some (b, rest)
    else
      match readOctets (b - 128) rest with
      | some (bytes, r) => some (fromBytesBE bytes, r)
      | none => none

/-- Model of `Writer.writeVarOctetString`: length determinant followed by the bytes. -/
def writeVarOctetString (s : List Nat) : List Nat :=
  encodeLengthDeterminant s.length ++ s

/-- Model of `Reader.readVarOctetString`. -/
def readVarOctetString (l : List Nat) : Option (List Nat × List Nat) :=
  match readLengthDeterminant l with
  | some (n, r) => readOctets n r
  | none => none

/-- Minimal big-endian content bytes of a var-uint (at least one byte). -/
def minBytesBE (n : Nat) : List Nat := if n = 0 then [0] else toBytesBE n

/-- Model of `Writer.writeVarUInt` on a `BigNumber` value. -/
def writeVarUInt (n : Nat) : List Nat := writeVarOctetString (minBytesBE n)

/-- Model of `Reader.readVarUIntBigNum`: a var octet string interpreted big-endian;
a zero-length var-uint is a parse error. -/
def readVarUInt (l : List Nat) : Option (Nat × List Nat) :=
  match readVarOctetString l with
  | some (s, r) => if s.isEmpty then none else some (fromBytesBE s, r)
  | none => none

theorem readOctets_append (s r : List Nat) :
    readOctets s.length (s ++ r) = some (s, r) := by
  unfold readOctets
  rw [if_pos (by simp), List.take_left, List.drop_left]

theorem readLengthDeterminant_append (n : Nat) (r : List Nat) :
    readLengthDeterminant (encodeLengthDeterminant n ++ r) = some (n, r) := by
  unfold encodeLengthDeterminant
  by_cases h : n ≤ 127
  · simp [h, readLengthDeterminant]
  · have hne : n ≠ 0 := by omega
    have hlb : (toBytesBE n).length ≥ 1 := by
      cases hb : toBytesBE n with
      | nil => exact absurd hb (toBytesBE_ne_nil n hne)
      | cons x xs => simp
    rw [if_neg h]
    simp only [List.cons_append, readLengthDeterminant]
    rw [if_neg (by omega)]
    have : 128 + (toBytesBE n).length - 128 = (toBytesBE n).length := by omega
    rw [this, readOctets_append]
    show some (fromBytesBE (toBytesBE n), r) = some (n, r)
    rw [fromBytesBE_toBytesBE]

theorem readVarOctetString_append (s r : List Nat) :
    readVarOctetString (writeVarOctetString s ++ r) = some (s, r) := by
  unfold writeVarOctetString readVarOctetString
  rw [List.append_assoc, readLengthDeterminant_append]
  show readOctets s.length (s ++ r) = some (s, r)
  exact readOctets_append s r

theorem minBytesBE_ne_nil (n : Nat) : minBytesBE n ≠ [] := by
  unfold minBytesBE
  by_cases h : n = 0
  · simp [h]
  · rw [if_neg h]
    exact toBytesBE_ne_nil n h

theorem fromBytesBE_minBytesBE (n : Nat) : fromBytesBE (minBytesBE n) = n := by
  unfold minBytesBE
  by_cases h : n = 0
  · simp [h, fromBytesBE]
  · rw [if_neg h, fromBytesBE_toBytesBE]

theorem readVarUInt_append (n : Nat) (r : List Nat) :
    readVarUInt (writeVarUInt n ++ r) = some (n, r) := by
  unfold writeVarUInt readVarUInt
  rw [readVarOctetString_append]
  have hne : (minBytesBE n).isEmpty = false := by
    cases hmb : minBytesBE n with
    | nil => exact absurd hmb (minBytesBE_ne_nil n)
    | cons x xs => rfl
  show (if (minBytesBE n).isEmpty = true then none else some (fromBytesBE (minBytesBE n), r)) = some (n, r)
  rw [hne]
  show some (fromBytesBE (minBytesBE n), r) = some (n, r)
  rw [fromBytesBE_minBytesBE]

/-! ## STREAM frames (src/protocol.ts).

Strings carried in frames (`sourceAccount`, `errorMessage`, `assetCode`) are
modelled by their UTF-8 byte lists, matching the `Buffer.from` /
`toString('utf8')` conversions in the source.  `errorCode` is modelled by its
numeric on-wire value; validity restricts it to the `ErrorCode` enum.

The repository's full frame catalog also has `ConnectionAssetDetails (0x07)`
and `StreamReceipt (0x17)`.  The packet module defining them (imported by the
repository's fixture generator as `../src/packet`) is not included under
`src/`; `src/protocol.ts` is an earlier revision without them.  Those two
constructors and their codec cases are therefore modelled from the spec (see
the doc comments below). -/

inductive Frame where
  | connectionClose (errorCode : Nat) (errorMessage : List Nat)
  | connectionNewAddress (sourceAccount : List Nat)
  | connectionMaxData (maxOffset : Nat)
  | connectionDataBlocked (maxOffset : Nat)
  | connectionMaxStreamId (maxStreamId : Nat)
  | connectionStreamIdBlocked (maxStreamId : Nat)
  /-- Modelled from the spec: `0x07 ConnectionAssetDetails` frame
  `{varStr assetCode, u8 assetScale}`; its defining module `src/packet.ts`
  is not under `src/`. -/
  | connectionAssetDetails (assetCode : List Nat) (assetScale : Nat)
  | streamClose (streamId : Nat) (errorCode : Nat) (errorMessage : List Nat)
  | streamMoney (streamId : Nat) (shares : Nat)
  | streamMaxMoney (streamId : Nat) (receiveMax : Nat) (totalReceived : Nat)
  | streamMoneyBlocked (streamId : Nat) (sendMax : Nat) (totalSent : Nat)
  | streamData (streamId : Nat) (offset : Nat) (data : List Nat)
  | streamMaxData (streamId : Nat) (maxOffset : Nat)
  | streamDataBlocked (streamId : Nat) (maxOffset : Nat)
  /-- Modelled from the spec: `0x17 StreamReceipt` frame
  `{varUInt streamId, varOctetString receipt}`; its defining module
  `src/packet.ts` is not under `src/`. -/
  | streamReceipt (streamId : Nat) (receipt : List Nat)
deriving DecidableEq, Repr

namespace Frame

/-- The `FrameType` byte of each frame (enum `FrameType`). -/
def typeByte : Frame → Nat
  | connectionClose .. => 0x01
  | connectionNewAddress .. => 0x02
  | connectionMaxData .. => 0x03
  | connectionDataBlocked .. => 0x04
  | connectionMaxStreamId .. => 0x05
  | connectionStreamIdBlocked .. => 0x06
  | connectionAssetDetails .. => 0x07
  | streamClose .. => 0x10
  | streamMoney .. => 0x11
  | streamMaxMoney .. => 0x12
  | streamMoneyBlocked .. => 0x13
  | streamData .. => 0x14
  | streamMaxData .. => 0x15
  | streamDataBlocked .. => 0x16
  | streamReceipt .. => 0x17

/-- The frame-specific contents written into the var octet string by each
frame's `writeTo`. -/
def contents : Frame → List Nat
  | connectionClose code msg => code :: writeVarOctetString msg
  | connectionNewAddress addr => writeVarOctetString addr
  | connectionMaxData off => writeVarUInt off
  | connectionDataBlocked off => writeVarUInt off
  | connectionMaxStreamId sid => writeVarUInt sid
  | connectionStreamIdBlocked sid => writeVarUInt sid
  | connectionAssetDetails code scale => writeVarOctetString code ++ [scale]
  | streamClose sid code msg => writeVarUInt sid ++ code :: writeVarOctetString msg
  | streamMoney sid shares => writeVarUInt sid ++ writeVarUInt shares
  | streamMaxMoney sid rMax tot => writeVarUInt sid ++ writeVarUInt rMax ++ writeVarUInt tot
  | streamMoneyBlocked sid sMax tot => writeVarUInt sid ++ writeVarUInt sMax ++ writeVarUInt tot
  | streamData sid off data => writeVarUInt sid ++ writeVarUInt off ++ writeVarOctetString data
  | streamMaxData sid off => writeVarUInt sid ++ writeVarUInt off
  | streamDataBlocked sid off => writeVarUInt sid ++ writeVarUInt off
  | streamReceipt sid rcpt => writeVarUInt sid ++ writeVarOctetString rcpt

/-- Model of `writeTo`: the type byte followed by the contents as a var octet string. -/
def writeTo (f : Frame) : List Nat := f.typeByte :: writeVarOctetString f.contents

/-- Numeric `ErrorCode` enum membership (`NoError 0x01` .. `ApplicationError
0x0a`); the source maps on-wire bytes to enum names, which is only faithful
for members of the enum. -/
def isErrorCode (c : Nat) : Bool := 1 ≤ c && c ≤ 10

/-- Model of `MAX_UINT64`, the largest value the writers are used with. -/
def MAX_UINT64 : Nat := 18446744073709551615

/-- Field ranges under which the TypeScript frame objects round-trip: var-uint
fields fit in a u64, single-byte fields fit in a byte, error codes are enum
members. -/
def valid : Frame → Bool
  | connectionClose code _ => isErrorCode code
  | connectionNewAddress _ => true
  | connectionMaxData off => off ≤ MAX_UINT64
  | connectionDataBlocked off => off ≤ MAX_UINT64
  | connectionMaxStreamId sid => sid ≤ MAX_UINT64
  | connectionStreamIdBlocked sid => sid ≤ MAX_UINT64
  | connectionAssetDetails _ scale => scale < 256
  | streamClose sid code _ => sid ≤ MAX_UINT64 && isErrorCode code
  | streamMoney sid shares => sid ≤ MAX_UINT64 && shares ≤ MAX_UINT64
  | streamMaxMoney sid rMax tot =>
    sid ≤ MAX_UINT64 && rMax ≤ MAX_UINT64 && tot ≤ MAX_UINT64
  | streamMoneyBlocked sid sMax tot =>
    sid ≤ MAX_UINT64 && sMax ≤ MAX_UINT64 && tot ≤ MAX_UINT64
  | streamData sid off _ => sid ≤ MAX_UINT64 && off ≤ MAX_UINT64
  | streamMaxData sid off => sid ≤ MAX_UINT64 && off ≤ MAX_UINT64
  | streamDataBlocked sid off => sid ≤ MAX_UINT64 && off ≤ MAX_UINT64
  | streamReceipt sid _ => sid ≤ MAX_UINT64

end Frame

/-- The set of type bytes handled by the `switch` in `parseFrame`
(including the two spec-modelled types 0x07 and 0x17). -/
def knownFrameType (t : Nat) : Bool :=
  [0x01, 0x02, 0x03, 0x04, 0x05, 0x06, 0x07,
    0x10, 0x11, 0x12, 0x13, 0x14, 0x15, 0x16, 0x17].contains t

/-- Each frame class's `fromBuffer`, applied to the frame contents (the
source wraps the contents in a fresh `Reader` and ignores trailing bytes). -/
def parseFrameContents (t : Nat) (c : List Nat) : Option Frame :=
  match t with
  | 0x01 =>
    match readUInt8 c with
    | some (code, r1) =>
      match readVarOctetString r1 with
      | some (msg, _) => some (.connectionClose code msg)
      | none => none
    | none => none
  | 0x02 =>
    match readVarOctetString c with
    | some (addr, _) => some (.connectionNewAddress addr)
    | none => none
  | 0x03 =>
    match readVarUInt c with
    | some (off, _) => some (.connectionMaxData off)
    | none => none
  | 0x04 =>
    match readVarUInt c with
    | some (off, _) => some (.connectionDataBlocked off)
    | none => none
  | 0x05 =>
    match readVarUInt c with
    | some (sid, _) => some (.connectionMaxStreamId sid)
    | none => none
  | 0x06 =>
    match readVarUInt c with
    | some (sid, _) => some (.connectionStreamIdBlocked sid)
    | none => none
  | 0x07 =>
    match readVarOctetString c with
    | some (code, r1) =>
      match readUInt8 r1 with
      | some (scale, _) => some (.connectionAssetDetails code scale)
      | none => none
    | none => none
  | 0x10 =>
    match readVarUInt c with
    | some (sid, r1) =>
      match readUInt8 r1 with
      | some (code, r2) =>
        match readVarOctetString r2 with
        | some (msg, _) => some (.streamClose sid code msg)
        | none => none
      | none => none
    | none => none
  | 0x11 =>
    match readVarUInt c with
    | some (sid, r1) =>
      match readVarUInt r1 with
      | some (shares, _) => some (.streamMoney sid shares)
      | none => none
    | none => none
  | 0x12 =>
    match readVarUInt c with
    | some (sid, r1) =>
      match readVarUInt r1 with
      | some (rMax, r2) =>
        match readVarUInt r2 with
        | some (tot, _) => some (.streamMaxMoney sid rMax tot)
        | none => none
      | none => none
    | none => none
  | 0x13 =>
    match readVarUInt c with
    | some (sid, r1) =>
      match readVarUInt r1 with
      | some (sMax, r2) =>
        match readVarUInt r2 with
        | some (tot, _) => some (.streamMoneyBlocked sid sMax tot)
        | none => none
      | none => none
    | none => none
  | 0x14 =>
    match readVarUInt c with
    | some (sid, r1) =>
      match readVarUInt r1 with
      | some (off, r2) =>
        match readVarOctetString r2 with
        | some (data, _) => some (.streamData sid off data)
        | none => none
      | none => none
    | none => none
  | 0x15 =>
    match readVarUInt c with
    | some (sid, r1) =>
      match readVarUInt r1 with
      | some (off, _) => some (.streamMaxData sid off)
      | none => none
    | none => none
  | 0x16 =>
    match readVarUInt c with
    | some (sid, r1) =>
      match readVarUInt r1 with
      | some (off, _) => some (.streamDataBlocked sid off)
      | none => none
    | none => none
  | 0x17 =>
    match readVarUInt c with
    | some (sid, r1) =>
      match readVarOctetString r1 with
      | some (rcpt, _) => some (.streamReceipt sid rcpt)
      | none => none
    | none => none
  | _ => none

/-- Model of `parseFrame`: peek at the type byte; known types dispatch to the class
parser, unknown types skip the type byte and one var octet string and yield
no frame.  Returns the (optional) frame and the remaining bytes. -/
def parseFrame (l : List Nat) : Option (Option Frame × List Nat) :=
  match l with
  | [] => none
  | t :: rest =>
    if knownFrameType t then
      match readVarOctetString rest with
      | some (c, r) =>
        match parseFrameContents t c with
        | some f => some (some f, r)
        | none => none
      | none => none
    else
      match readVarOctetString rest with
      | some (_, r) => some (none, r)
      | none => none

/-- The frame-reading loop of `Packet._deserializeUnencrypted`: read exactly
`n` frames, keeping those that parsed to a known type. -/
def parseFrames : Nat → List Nat → Option (List Frame × List Nat)
  | 0, l => some ([], l)
  | n + 1, l =>
    match parseFrame l with
    | some (of, r) =>
      match parseFrames n r with
      | some (fs, r2) =>
        match of with
        | some f => some (f :: fs, r2)
        | none => some (fs, r2)
      | none => none
    | none => none

/-! ## STREAM packets (class `Packet` in src/protocol.ts). -/

structure Packet where
  sequence : Nat
  ilpPacketType : Nat
  prepareAmount : Nat
  frames : List Frame
deriving DecidableEq, Repr

namespace Packet

/-- Model of `IlpPacketType` values: 12 = Prepare, 13 = Fulfill, 14 = Reject. -/
def isIlpPacketType (t : Nat) : Bool := t = 12 || t = 13 || t = 14

/-- Model of `Packet.writeTo` / `_serialize`: version 1, type byte, var-uint sequence,
var-uint prepare amount, var-uint frame count, then the frames. -/
def serialize (p : Packet) : List Nat :=
  1 :: p.ilpPacketType :: (writeVarUInt p.sequence ++ writeVarUInt p.prepareAmount
    ++ writeVarUInt p.frames.length ++ (p.frames.map Frame.writeTo).flatten)

/-- Model of `Packet._deserializeUnencrypted`: reject versions other than 1, read the
header fields, read exactly `numFrames` frames and ignore any trailing
bytes. -/
def deserialize (l : List Nat) : Option Packet :=
  match readUInt8 l with
  | some (v, r1) =>
    if v = 1 then
      match readUInt8 r1 with
      | some (t, r2) =>
        match readVarUInt r2 with
        | some (seq, r3) =>
          match readVarUInt r3 with
          | some (amt, r4) =>
            match readVarUInt r4 with
            | some (nf, r5) =>
              match parseFrames nf r5 with
              | some (fs, _) => some ⟨seq, t, amt, fs⟩
              | none => none
            | none => none
          | none => none
        | none => none
      | none => none
    else none
  | none => none

/-- In-range packets: byte-sized type that is an `IlpPacketType`, u64 header
fields, and valid frames. -/
def valid (p : Packet) : Bool :=
  isIlpPacketType p.ilpPacketType && p.sequence ≤ Frame.MAX_UINT64
    && p.prepareAmount ≤ Frame.MAX_UINT64 && p.frames.all Frame.valid

end Packet

/-! ### Codec round-trip lemmas. -/

theorem knownFrameType_typeByte (f : Frame) : knownFrameType f.typeByte = true := by
  cases f <;> rfl

theorem parseFrameContents_contents (f : Frame) :
    parseFrameContents f.typeByte f.contents = some f := by
  cases f with
  | connectionClose code msg =>
    show parseFrameContents 0x01 (code :: writeVarOctetString msg) = _
    have h := readVarOctetString_append msg []
    rw [List.append_nil] at h
    simp [parseFrameContents, readUInt8, h]
  | connectionNewAddress addr =>
    show parseFrameContents 0x02 (writeVarOctetString addr) = _
    have h := readVarOctetString_append addr []
    rw [List.append_nil] at h
    simp [parseFrameContents, h]
  | connectionMaxData off =>
    show parseFrameContents 0x03 (writeVarUInt off) = _
    have h := readVarUInt_append off []
    rw [List.append_nil] at h
    simp [parseFrameContents, h]
  | connectionDataBlocked off =>
    show parseFrameContents 0x04 (writeVarUInt off) = _
    have h := readVarUInt_append off []
    rw [List.append_nil] at h
    simp [parseFrameContents, h]
  | connectionMaxStreamId sid =>
    show parseFrameContents 0x05 (writeVarUInt sid) = _
    have h := readVarUInt_append sid []
    rw [List.append_nil] at h
    simp [parseFrameContents, h]
  | connectionStreamIdBlocked sid =>
    show parseFrameContents 0x06 (writeVarUInt sid) = _
    have h := readVarUInt_append sid []
    rw [List.append_nil] at h
    simp [parseFrameContents, h]
  | connectionAssetDetails code scale =>
    show parseFrameContents 0x07 (writeVarOctetString code ++ [scale]) = _
    simp [parseFrameContents, readVarOctetString_append, readUInt8]
  | streamClose sid code msg =>
    show parseFrameContents 0x10
      (writeVarUInt sid ++ code :: writeVarOctetString msg) = _
    have h := readVarOctetString_append msg []
    rw [List.append_nil] at h
    simp [parseFrameContents, readVarUInt_append, readUInt8, h]
  | streamMoney sid shares =>
    show parseFrameContents 0x11 (writeVarUInt sid ++ writeVarUInt shares) = _
    have h := readVarUInt_append shares []
    rw [List.append_nil] at h
    simp [parseFrameContents, readVarUInt_append, h]
  | streamMaxMoney sid rMax tot =>
    show parseFrameContents 0x12
      (writeVarUInt sid ++ writeVarUInt rMax ++ writeVarUInt tot) = _
    have h := readVarUInt_append tot []
    rw [List.append_nil] at h
    rw [List.append_assoc]
    simp [parseFrameContents, readVarUInt_append, h]
  | streamMoneyBlocked sid sMax tot =>
    show parseFrameContents 0x13
      (writeVarUInt sid ++ writeVarUInt sMax ++ writeVarUInt tot) = _
    have h := readVarUInt_append tot []
    rw [List.append_nil] at h
    rw [List.append_assoc]
    simp [parseFrameContents, readVarUInt_append, h]
  | streamData sid off data =>
    show parseFrameContents 0x14
      (writeVarUInt sid ++ writeVarUInt off ++ writeVarOctetString data) = _
    have h := readVarOctetString_append data []
    rw [List.append_nil] at h
    rw [List.append_assoc]
    simp [parseFrameContents, readVarUInt_append, h]
  | streamMaxData sid off =>
    show parseFrameContents 0x15 (writeVarUInt sid ++ writeVarUInt off) = _
    have h := readVarUInt_append off []
    rw [List.append_nil] at h
    simp [parseFrameContents, readVarUInt_append, h]
  | streamDataBlocked sid off =>
    show parseFrameContents 0x16 (writeVarUInt sid ++ writeVarUInt off) = _
    have h := readVarUInt_append off []
    rw [List.append_nil] at h
    simp [parseFrameContents, readVarUInt_append, h]
  | streamReceipt sid rcpt =>
    show parseFrameContents 0x17 (writeVarUInt sid ++ writeVarOctetString rcpt) = _
    have h := readVarOctetString_append rcpt []
    rw [List.append_nil] at h
    simp [parseFrameContents, readVarUInt_append, h]

theorem parseFrame_writeTo (f : Frame) (r : List Nat) :
    parseFrame (f.writeTo ++ r) = some (some f, r) := by
  show parseFrame (f.typeByte :: (writeVarOctetString f.contents ++ r)) = some (some f, r)
  simp only [parseFrame, knownFrameType_typeByte, eq_self_iff_true, if_true,
    readVarOctetString_append, parseFrameContents_contents]

theorem parseFrame_unknown (t : Nat) (c r : List Nat)
    (h : knownFrameType t = false) :
    parseFrame (t :: writeVarOctetString c ++ r) = some (none, r) := by
  show parseFrame (t :: (writeVarOctetString c ++ r)) = some (none, r)
  simp only [parseFrame, h, Bool.false_eq_true, if_false, readVarOctetString_append]

theorem parseFrames_append (fs : List Frame) (r : List Nat) :
    parseFrames fs.length ((fs.map Frame.writeTo).flatten ++ r) = some (fs, r) := by
  induction fs with
  | nil => simp [parseFrames]
  | cons f fs ih =>
    simp only [List.map_cons, List.flatten_cons, List.length_cons, List.append_assoc]
    unfold parseFrames
    rw [parseFrame_writeTo]
    show (match parseFrames fs.length ((List.map Frame.writeTo fs).flatten ++ r) with
      | some (fs', r2) => some (f :: fs', r2)
      | none => none) = some (f :: fs, r)
    rw [ih]

theorem deserialize_serialize_append (p : Packet) (r : List Nat) :
    Packet.deserialize (Packet.serialize p ++ r) = some p := by
  obtain ⟨seq, t, amt, fs⟩ := p
  simp only [Packet.serialize, Packet.deserialize, List.cons_append,
    List.append_assoc, readUInt8, eq_self_iff_true, if_true,
    readVarUInt_append, parseFrames_append]

/-- Serialization of a packet whose frame list additionally carries, at
position `i`, a raw frame envelope `[u8 type][varOctetString contents]` of an
unrecognized type: the frame count includes it and its bytes are emitted in
place. -/
def Packet.serializeWithUnknownFrame (p : Packet) (i t : Nat) (c : List Nat) :
    List Nat :=
  1 :: p.ilpPacketType :: (writeVarUInt p.sequence ++ writeVarUInt p.prepareAmount
    ++ writeVarUInt (p.frames.length + 1)
    ++ ((p.frames.map Frame.writeTo).take i ++ [t :: writeVarOctetString c]
        ++ (p.frames.map Frame.writeTo).drop i).flatten)

theorem parseFrames_with_unknown (fs1 fs2 : List Frame) (t : Nat) (c r : List Nat)
    (h : knownFrameType t = false) :
    parseFrames (fs1.length + fs2.length + 1)
      ((fs1.map Frame.writeTo).flatten ++ ((t :: writeVarOctetString c)
        ++ ((fs2.map Frame.writeTo).flatten ++ r)))
      = some (fs1 ++ fs2, r) := by
  induction fs1 with
  | nil =>
    simp only [List.map_nil, List.flatten_nil, List.length_nil, List.nil_append,
      Nat.zero_add]
    unfold parseFrames
    rw [parseFrame_unknown t c _ h]
    show (match parseFrames fs2.length ((fs2.map Frame.writeTo).flatten ++ r) with
      | some (fs', r2) => some (fs', r2)
      | none => none) = some (fs2, r)
    rw [parseFrames_append]
  | cons f fs1 ih =>
    simp only [List.map_cons, List.flatten_cons, List.length_cons]
    have hc : fs1.length + 1 + fs2.length + 1 = (fs1.length + fs2.length + 1) + 1 := by
      omega
    rw [hc, List.append_assoc]
    unfold parseFrames
    rw [parseFrame_writeTo]
    show (match parseFrames (fs1.length + fs2.length + 1)
        ((fs1.map Frame.writeTo).flatten ++ ((t :: writeVarOctetString c)
          ++ ((fs2.map Frame.writeTo).flatten ++ r))) with
      | some (fs', r2) => some (f :: fs', r2)
      | none => none) = some (f :: (fs1 ++ fs2), r)
    rw [ih]

theorem deserialize_serializeWithUnknownFrame (p : Packet) (i t : Nat)
    (c : List Nat) (h : knownFrameType t = false) :
    Packet.deserialize (p.serializeWithUnknownFrame i t c) = some p := by
  obtain ⟨seq, pt, amt, fs⟩ := p
  simp only [Packet.serializeWithUnknownFrame]
  have hmain := parseFrames_with_unknown (fs.take i) (fs.drop i) t c [] h
  have hlen : fs.length + 1 = (fs.take i).length + (fs.drop i).length + 1 := by
    rw [List.length_take, List.length_drop]
    omega
  simp only [List.append_nil, List.cons_append, List.append_assoc] at hmain
  simp only [Packet.deserialize, readUInt8, eq_self_iff_true, if_true,
    List.append_assoc, List.flatten_append, List.flatten_cons, List.flatten_nil,
    List.append_nil, List.nil_append, List.cons_append, readVarUInt_append, hlen,
    ← List.map_take, ← List.map_drop, hmain, List.take_append_drop]

/-! ## AES-256-GCM wrappers (src/crypto.ts `encrypt` / `decrypt`).

The cipher itself is Node's `crypto` module, external to the repository: it
is modelled by a pair of functions `aesEnc key iv plaintext = (ciphertext,
authTag)` and `aesDec key iv ciphertext tag`, constrained in the theorems by
the standard AES-GCM facts (ciphertext as long as plaintext, 16-byte tag,
decryption inverts encryption). -/

/-- Model of `encrypt(key, ...buffers)`: GCM-encrypt the concatenation of the buffers
under a fresh 12-byte IV (the IV is passed explicitly here since the source
draws it from `randomBytes`), and return `iv ‖ authTag ‖ ciphertext`. -/
def encrypt (aesEnc : List Nat → List Nat → List Nat → List Nat × List Nat)
    (key iv : List Nat) (buffers : List (List Nat)) : List Nat :=
  iv ++ ((aesEnc key iv buffers.flatten).2 ++ (aesEnc key iv buffers.flatten).1)

/-- Model of `decrypt(key, data)`: split `data` into a 12-byte nonce, a 16-byte auth
tag and the ciphertext, and GCM-decrypt (`none` models the assertion failure
on empty input and `decipher.final()` throwing on tag mismatch). -/
def decrypt (aesDec : List Nat → List Nat → List Nat → List Nat → Option (List Nat))
    (key data : List Nat) : Option (List Nat) :=
  if data.length = 0 then none
  else aesDec key (data.take 12) ((data.drop 12).take 16) (data.drop 28)

/-- Model of `ENCRYPTION_OVERHEAD` (12-byte IV plus 16-byte auth tag). -/
def ENCRYPTION_OVERHEAD : Nat := 28

/-- Model of `Packet.serializeAndEncrypt`: optionally pad the serialized packet with
32-byte blocks of zeros (plus a final partial block) up to
`padPacketToSize - ENCRYPTION_OVERHEAD` bytes before encrypting.  (`Nat`
subtraction truncates at zero; the claims only concern
`padPacketToSize ≥ serialized length + ENCRYPTION_OVERHEAD`, where it agrees
with the JavaScript arithmetic.) -/
def Packet.serializeAndEncrypt
    (aesEnc : List Nat → List Nat → List Nat → List Nat × List Nat)
    (key iv : List Nat) (p : Packet) (padPacketToSize : Option Nat) : List Nat :=
  let serialized := p.serialize
  match padPacketToSize with
  | none => encrypt aesEnc key iv [serialized]
  | some pad =>
    let paddingSize := pad - ENCRYPTION_OVERHEAD - serialized.length
    encrypt aesEnc key iv
      (serialized :: (List.replicate (paddingSize / 32) (List.replicate 32 0)
        ++ [List.replicate (paddingSize % 32) 0]))

/-- Model of `Packet.decryptAndDeserialize`: decrypt, then parse. -/
def Packet.decryptAndDeserialize
    (aesDec : List Nat → List Nat → List Nat → List Nat → Option (List Nat))
    (key data : List Nat) : Option Packet :=
  match decrypt aesDec key data with
  | some plaintext => Packet.deserialize plaintext
  | none => none

theorem flatten_replicate_replicate (q : Nat) :
    (List.replicate q (List.replicate 32 (0 : Nat))).flatten
      = List.replicate (q * 32) 0 := by
  induction q with
  | zero => rfl
  | succ q ih =>
    rw [List.replicate_succ, List.flatten_cons, ih, ← List.replicate_add]
    congr 1
    ring

/-- The padding appended by `serializeAndEncrypt` is exactly `paddingSize`
zero bytes. -/
theorem padding_flatten (s : List Nat) (paddingSize : Nat) :
    (s :: (List.replicate (paddingSize / 32) (List.replicate 32 0)
      ++ [List.replicate (paddingSize % 32) 0])).flatten
      = s ++ List.replicate paddingSize 0 := by
  rw [List.flatten_cons, List.flatten_append, flatten_replicate_replicate]
  simp only [List.flatten_cons, List.flatten_nil, List.append_nil]
  rw [← List.replicate_add]
  congr 2
  omega

/-! ## Receipts (src/util/receipt.ts).

`generateReceiptHMAC` lives in src/crypto.ts's successor module (not under
`src/`); per the spec it is HMAC-SHA256 of the message under the receipt
secret, and is modelled by a function parameter `hmac` producing 32 bytes. -/

def RECEIPT_VERSION : Nat := 1

structure DecodedReceipt where
  version : Nat
  nonce : List Nat
  streamId : Nat
  totalReceived : Nat
deriving DecidableEq, Repr

/-- Model of `createReceipt`: check the nonce and secret lengths, then write
version, nonce, `streamId` as a single byte (`writeUInt8`), `totalReceived`
as a big-endian `UInt64`, and the HMAC of those first 26 bytes. -/
def createReceipt (hmac : List Nat → List Nat → List Nat) (nonce : List Nat)
    (streamId totalReceived : Nat) (secret : List Nat) :
    Except String (List Nat) :=
  if nonce.length ≠ 16 then .error "receipt nonce must be 16 bytes"
  else if secret.length ≠ 32 then .error "receipt secret must be 32 bytes"
  else
    let message := RECEIPT_VERSION :: (nonce
      ++ streamId :: fixedBytesBE 8 totalReceived)
    .ok (message ++ hmac secret message)

/-- Model of `decodeReceipt`: 58 bytes exactly, then read version (u8), nonce (16
bytes), streamId (u8) and totalReceived (u64 big-endian). -/
def decodeReceipt (receipt : List Nat) : Except String DecodedReceipt :=
  if receipt.length ≠ 58 then .error "receipt must be 58 bytes"
  else
    match readUInt8 receipt with
    | some (version, r1) =>
      match readOctets 16 r1 with
      | some (nonce, r2) =>
        match readUInt8 r2 with
        | some (sid, r3) =>
          match readOctets 8 r3 with
          | some (tr, _) => .ok ⟨version, nonce, sid, fromBytesBE tr⟩
          | none => .error "out of bounds"
        | none => .error "out of bounds"
      | none => .error "out of bounds"
    | none => .error "out of bounds"

/-- Model of `verifyReceipt`: false unless the length is 58, the version byte is 1,
and the trailing 32 bytes equal the HMAC of the leading 26 bytes. -/
def verifyReceipt (hmac : List Nat → List Nat → List Nat)
    (receipt secret : List Nat) : Bool :=
  if receipt.length ≠ 58 then false
  else
    match readUInt8 receipt with
    | some (v, _) =>
      if v ≠ RECEIPT_VERSION then false
      else decide (receipt.drop 26 = hmac secret (receipt.take 26))
    | none => false

/-! ## Offset reassembler (`OffsetSorter`, src/util/data-queue).

The linked list of `OffsetDataEntry` nodes is modelled as a list of
`(offset, data)` pairs. -/

structure OffsetSorter where
  head : List (Nat × List Nat)
  readOffset : Nat
  endOffset : Int
  maxOffset : Nat
deriving DecidableEq, Repr

namespace OffsetSorter

/-- The constructor: empty queue, `readOffset = 0`, `endOffset = -1`,
`maxOffset = 0`. -/
def empty : OffsetSorter := ⟨[], 0, -1, 0⟩

/-- The insertion walk of `push`: a new entry goes immediately before the
first queued entry with a strictly greater offset. -/
def insertEntry (e : Nat × List Nat) : List (Nat × List Nat) → List (Nat × List Nat)
  | [] => [e]
  | x :: xs => if x.1 > e.1 then e :: x :: xs else x :: insertEntry e xs

/-- Model of `push(data, offset)`. -/
def push (s : OffsetSorter) (data : List Nat) (offset : Nat) : OffsetSorter :=
  { s with
    head := insertEntry (offset, data) s.head,
    maxOffset := max (offset + data.length) s.maxOffset }

/-- Model of `read()`: pop the head entry iff its offset equals `readOffset`, and
advance `readOffset` past it. -/
def read (s : OffsetSorter) : Option (List Nat) × OffsetSorter :=
  match s.head with
  | [] => (none, s)
  | (o, d) :: rest =>
    if s.readOffset = o then
      (some d, { s with head := rest, readOffset := o + d.length })
    else (none, s)

/-- Push a list of `(offset, data)` chunks in order. -/
def pushMany (s : OffsetSorter) (cs : List (Nat × List Nat)) : OffsetSorter :=
  cs.foldl (fun acc e => push acc e.2 e.1) s

/-- The loop body of draining by repeated `read()` calls, phrased on the
queue contents (structural recursion; `drain` ties it to the sorter). -/
def drainList : Nat → List (Nat × List Nat) → List (List Nat)
  | _, [] => []
  | ro, (o, d) :: rest => if ro = o then d :: drainList (o + d.length) rest else []

/-- Call `read()` until it returns nothing, collecting the returned chunks. -/
def drain (s : OffsetSorter) : List (List Nat) := drainList s.readOffset s.head

/-- Model of `drain` is the iteration of `read`: it returns the chunk of one `read()`
call followed by draining the updated sorter, stopping when `read()` yields
nothing. -/
theorem drain_eq_read (s : OffsetSorter) :
    drain s = (match read s with
      | (some d, s') => d :: drain s'
      | (none, _) => []) := by
  obtain ⟨head, ro, eo, mo⟩ := s
  cases head with
  | nil => rfl
  | cons e rest =>
    obtain ⟨o, d⟩ := e
    by_cases h : ro = o
    · simp [drain, drainList, read, h]
    · simp [drain, drainList, read, h]

end OffsetSorter

/-! ## Server address generation (src/index.ts). -/

/-- Model of `CONNECTION_ID_REGEX` character class `[a-zA-Z0-9~_-]`. -/
def isConnTagChar (ch : Char) : Bool :=
  ('a' ≤ ch && ch ≤ 'z') || ('A' ≤ ch && ch ≤ 'Z') || ('0' ≤ ch && ch ≤ '9')
    || ch = '~' || ch = '_' || ch = '-'

/-- Model of `CONNECTION_ID_REGEX.test`: `/^[a-zA-Z0-9~_-]+$/` matches nonempty
strings of allowed characters. -/
def connTagTest (s : String) : Bool :=
  !s.isEmpty && s.toList.all isConnTagChar

/-- Modelled from the spec: Node's `Buffer.toString('base64')` (standard
base64 with `=` padding), which is external library code.  `base64url`
below applies the source's replacements to it. -/
def base64Chars : List Char :=
  "ABCDEFGHIJKLMNOPQRSTUVWXYZabcdefghijklmnopqrstuvwxyz0123456789+/".toList

def base64Char (n : Nat) : Char := base64Chars.getD n 'A'

def base64Groups : List Nat → List Char
  | b1 :: b2 :: b3 :: rest =>
    base64Char (b1 / 4) :: base64Char (b1 % 4 * 16 + b2 / 16)
      :: base64Char (b2 % 16 * 4 + b3 / 64) :: base64Char (b3 % 64)
      :: base64Groups rest
  | [b1, b2] =>
    [base64Char (b1 / 4), base64Char (b1 % 4 * 16 + b2 / 16),
      base64Char (b2 % 16 * 4), '=']
  | [b1] => [base64Char (b1 / 4), base64Char (b1 % 4 * 16), '=', '=']
  | [] => []

/-- Model of `base64url` from src/index.ts: base64, strip trailing `=` padding,
`+` → `-`, `/` → `_`. -/
def base64url (buffer : List Nat) : String :=
  String.mk (((base64Groups buffer).filter (fun ch => ch ≠ '=')).map
    (fun ch => if ch = '+' then '-' else if ch = '/' then '_' else ch))

/-- Model of `Buffer.from(token, 'ascii')`: low byte of each code point. -/
def asciiBytes (s : String) : List Nat := s.toList.map (fun ch => ch.toNat % 256)

/-- Model of `Server.generateAddressAndSecret(connectionTag?)`.  The randomness
(`cryptoHelper.generateToken()`, 18 bytes) is passed in as `tokenBytes`, and
HMAC-SHA256 as `hmac`; `connected` is the server's connection flag.  Returns
`(destinationAccount, sharedSecret)`. -/
def generateAddressAndSecret (hmac : List Nat → List Nat → List Nat)
    (serverSecret : List Nat) (connected : Bool) (serverAccount : String)
    (tokenBytes : List Nat) (connectionTag : Option String) :
    Except String (String × List Nat) :=
  if !connected then .error "Server must be connected to generate address and secret"
  else
    let token0 := base64url tokenBytes
    let token :=
      match connectionTag with
      | some tag =>
        if !tag.isEmpty then
          if !connTagTest tag then none
          else some (token0 ++ "~" ++ tag)
        else some token0
      | none => some token0
    match token with
    | none =>
      .error "connectionTag can only include ASCII characters a-z, A-Z, 0-9, \"_\", \"-\", and \"~\""
    | some token =>
      .ok (serverAccount ++ "." ++ token,
        hmac (hmac serverSecret (asciiBytes "ilp_stream_shared_secret"))
          (asciiBytes token))

/-! ### Reassembler lemmas. -/

theorem insertEntry_perm (e : Nat × List Nat) (l : List (Nat × List Nat)) :
    (OffsetSorter.insertEntry e l).Perm (e :: l) := by
  induction l with
  | nil => exact List.Perm.refl _
  | cons x xs ih =>
    simp only [OffsetSorter.insertEntry]
    by_cases h : x.1 > e.1
    · rw [if_pos h]
    · rw [if_neg h]
      exact (ih.cons x).trans (List.Perm.swap e x xs)

theorem mem_insertEntry {e b : Nat × List Nat} {l : List (Nat × List Nat)} :
    b ∈ OffsetSorter.insertEntry e l ↔ b = e ∨ b ∈ l := by
  rw [(insertEntry_perm e l).mem_iff, List.mem_cons]

theorem insertEntry_sorted (e : Nat × List Nat) (l : List (Nat × List Nat))
    (hl : l.Pairwise (fun a b => a.1 ≤ b.1)) :
    (OffsetSorter.insertEntry e l).Pairwise (fun a b => a.1 ≤ b.1) := by
  induction l with
  | nil => simp [OffsetSorter.insertEntry]
  | cons x xs ih =>
    rw [List.pairwise_cons] at hl
    simp only [OffsetSorter.insertEntry]
    by_cases h : x.1 > e.1
    · rw [if_pos h, List.pairwise_cons]
      refine ⟨?_, List.pairwise_cons.mpr hl⟩
      intro b hb
      rcases List.mem_cons.mp hb with hbx | hbxs
      · subst hbx
        omega
      · have := hl.1 b hbxs
        omega
    · rw [if_neg h, List.pairwise_cons]
      refine ⟨?_, ih hl.2⟩
      intro b hb
      rcases mem_insertEntry.mp hb with hbe | hbxs
      · subst hbe
        omega
      · exact hl.1 b hbxs

theorem pushMany_head (s : OffsetSorter) (cs : List (Nat × List Nat)) :
    (OffsetSorter.pushMany s cs).head
      = cs.foldl (fun l e => OffsetSorter.insertEntry e l) s.head := by
  induction cs generalizing s with
  | nil => rfl
  | cons e cs ih =>
    obtain ⟨o, d⟩ := e
    simp only [OffsetSorter.pushMany, List.foldl_cons] at ih ⊢
    exact ih _

theorem pushMany_readOffset (s : OffsetSorter) (cs : List (Nat × List Nat)) :
    (OffsetSorter.pushMany s cs).readOffset = s.readOffset := by
  induction cs generalizing s with
  | nil => rfl
  | cons e cs ih =>
    simp only [OffsetSorter.pushMany, List.foldl_cons] at ih ⊢
    exact ih _

theorem foldl_insertEntry_perm (cs : List (Nat × List Nat))
    (l : List (Nat × List Nat)) :
    (cs.foldl (fun l e => OffsetSorter.insertEntry e l) l).Perm (l ++ cs) := by
  induction cs generalizing l with
  | nil => simp
  | cons e cs ih =>
    rw [List.foldl_cons]
    refine (ih _).trans ?_
    refine ((insertEntry_perm e l).append_right cs).trans ?_
    rw [List.cons_append]
    exact List.perm_middle.symm

theorem foldl_insertEntry_sorted (cs : List (Nat × List Nat))
    (l : List (Nat × List Nat)) (hl : l.Pairwise (fun a b => a.1 ≤ b.1)) :
    (cs.foldl (fun l e => OffsetSorter.insertEntry e l) l).Pairwise
      (fun a b => a.1 ≤ b.1) := by
  induction cs generalizing l with
  | nil => exact hl
  | cons e cs ih =>
    rw [List.foldl_cons]
    exact ih _ (insertEntry_sorted e l hl)

/-- Chunks exactly tiling the byte range starting at `r`: each chunk is
nonempty, starts where the previous one ended. -/
def chainFromB : Nat → List (Nat × List Nat) → Bool
  | _, [] => true
  | r, e :: rest =>
    decide (e.1 = r) && !e.2.isEmpty && chainFromB (r + e.2.length) rest

theorem chainFromB_le {r : Nat} {S : List (Nat × List Nat)}
    (h : chainFromB r S = true) : ∀ e ∈ S, r ≤ e.1 := by
  induction S generalizing r with
  | nil => intro e he; cases he
  | cons x xs ih =>
    simp only [chainFromB, Bool.and_eq_true, decide_eq_true_eq] at h
    intro e he
    rcases List.mem_cons.mp he with hex | hexs
    · subst hex
      omega
    · have := ih h.2 e hexs
      omega

theorem chainFromB_sorted_lt {r : Nat} {S : List (Nat × List Nat)}
    (h : chainFromB r S = true) : S.Pairwise (fun a b => a.1 < b.1) := by
  induction S generalizing r with
  | nil => exact List.Pairwise.nil
  | cons x xs ih =>
    simp only [chainFromB, Bool.and_eq_true, decide_eq_true_eq,
      Bool.not_eq_true', List.isEmpty_eq_false] at h
    rw [List.pairwise_cons]
    refine ⟨?_, ih h.2⟩
    intro b hb
    have hlen : 1 ≤ x.2.length := by
      cases hx : x.2 with
      | nil => exact absurd hx h.1.2
      | cons y ys => simp
    have := chainFromB_le h.2 b hb
    omega

theorem drainList_chain {r : Nat} {S : List (Nat × List Nat)}
    (h : chainFromB r S = true) :
    OffsetSorter.drainList r S = S.map Prod.snd := by
  induction S generalizing r with
  | nil => rfl
  | cons x xs ih =>
    obtain ⟨o, d⟩ := x
    simp only [chainFromB, Bool.and_eq_true, decide_eq_true_eq] at h
    obtain ⟨⟨hx, _⟩, hrest⟩ := h
    simp only [OffsetSorter.drainList, List.map_cons]
    rw [if_pos hx.symm, hx, ih hrest]

instance : IsAntisymm (Nat × List Nat) (fun a b => a.1 < b.1) :=
  ⟨fun _ _ h1 h2 => absurd (Nat.lt_trans h1 h2) (Nat.lt_irrefl _)⟩

/-- Pushing any permutation of a tiling of `[0, L)` and then draining
returns the chunks in offset order. -/
theorem pushMany_drain (cs S : List (Nat × List Nat)) (eo : Int) (mo : Nat)
    (hperm : cs.Perm S) (hchain : chainFromB 0 S = true) :
    OffsetSorter.drain (OffsetSorter.pushMany ⟨[], 0, eo, mo⟩ cs)
      = S.map Prod.snd := by
  have hhead := pushMany_head ⟨[], 0, eo, mo⟩ cs
  have hro := pushMany_readOffset ⟨[], 0, eo, mo⟩ cs
  set R := cs.foldl (fun l e => OffsetSorter.insertEntry e l) [] with hR
  have hRS : R.Perm S := by
    refine (foldl_insertEntry_perm cs []).trans ?_
    simpa using hperm
  have hS_lt := chainFromB_sorted_lt hchain
  have hR_le : R.Pairwise (fun a b => a.1 ≤ b.1) :=
    foldl_insertEntry_sorted cs [] List.Pairwise.nil
  have hndS : (S.map Prod.fst).Nodup :=
    List.pairwise_map.mpr (hS_lt.imp fun h => Nat.ne_of_lt h)
  have hndR : (R.map Prod.fst).Nodup := ((hRS.map Prod.fst).nodup_iff).mpr hndS
  have hR_ne : R.Pairwise (fun a b => a.1 ≠ b.1) := List.pairwise_map.mp hndR
  have hR_lt : R.Pairwise (fun a b => a.1 < b.1) :=
    (hR_le.and hR_ne).imp fun h => lt_of_le_of_ne h.1 h.2
  have hReq : R = S := List.eq_of_perm_of_sorted hRS hR_lt hS_lt
  show OffsetSorter.drainList (OffsetSorter.pushMany ⟨[], 0, eo, mo⟩ cs).readOffset
    (OffsetSorter.pushMany ⟨[], 0, eo, mo⟩ cs).head = S.map Prod.snd
  rw [hro, hhead, hReq]
  exact drainList_chain hchain

/-! ### Crypto wrapper lemmas. -/

theorem decrypt_encrypt (aesEnc : List Nat → List Nat → List Nat → List Nat × List Nat)
    (aesDec : List Nat → List Nat → List Nat → List Nat → Option (List Nat))
    (key iv : List Nat) (bs : List (List Nat))
    (hiv : iv.length = 12)
    (htag : (aesEnc key iv bs.flatten).2.length = 16)
    (hdec : aesDec key iv (aesEnc key iv bs.flatten).2 (aesEnc key iv bs.flatten).1
      = some bs.flatten) :
    decrypt aesDec key (encrypt aesEnc key iv bs) = some bs.flatten := by
  set tag := (aesEnc key iv bs.flatten).2 with htagdef
  set ct := (aesEnc key iv bs.flatten).1 with hctdef
  have henc : encrypt aesEnc key iv bs = iv ++ (tag ++ ct) := rfl
  unfold decrypt
  rw [henc]
  have hlen0 : ¬ (iv ++ (tag ++ ct)).length = 0 := by
    rw [List.length_append, List.length_append, hiv]
    omega
  rw [if_neg hlen0]
  have t1 : (iv ++ (tag ++ ct)).take 12 = iv := by
    rw [← hiv]
    exact List.take_left _ _
  have t2 : (iv ++ (tag ++ ct)).drop 12 = tag ++ ct := by
    rw [← hiv]
    exact List.drop_left _ _
  have t3 : (tag ++ ct).take 16 = tag := by
    rw [← htag]
    exact List.take_left _ _
  have t4 : (iv ++ (tag ++ ct)).drop 28 = ct := by
    rw [← List.append_assoc]
    have h28 : (iv ++ tag).length = 28 := by
      rw [List.length_append, hiv, htag]
    rw [← h28]
    exact List.drop_left _ _
  rw [t1, t2, t3, t4, hdec]

theorem length_encrypt (aesEnc : List Nat → List Nat → List Nat → List Nat × List Nat)
    (key iv : List Nat) (bs : List (List Nat))
    (hiv : iv.length = 12)
    (hct : (aesEnc key iv bs.flatten).1.length = bs.flatten.length)
    (htag : (aesEnc key iv bs.flatten).2.length = 16) :
    (encrypt aesEnc key iv bs).length = bs.flatten.length + 28 := by
  show (iv ++ ((aesEnc key iv bs.flatten).2 ++ (aesEnc key iv bs.flatten).1)).length = _
  rw [List.length_append, List.length_append, hiv, hct, htag]
  omega

/-! ### Receipt lemmas. -/

theorem createReceipt_ok (hmac : List Nat → List Nat → List Nat)
    (nonce : List Nat) (sid tr : Nat) (secret : List Nat)
    (hn : nonce.length = 16) (hs : secret.length = 32) :
    createReceipt hmac nonce sid tr secret
      = .ok ((RECEIPT_VERSION :: (nonce ++ sid :: fixedBytesBE 8 tr))
          ++ hmac secret (RECEIPT_VERSION :: (nonce ++ sid :: fixedBytesBE 8 tr))) := by
  simp [createReceipt, hn, hs]

theorem receiptMessage_length (nonce : List Nat) (sid tr : Nat)
    (hn : nonce.length = 16) :
    (RECEIPT_VERSION :: (nonce ++ sid :: fixedBytesBE 8 tr)).length = 26 := by
  simp [hn, length_fixedBytesBE]

/-! ### Reassembler `read` characterization. -/

theorem read_min_characterization (s : OffsetSorter)
    (hs : s.head.Pairwise (fun a b => a.1 ≤ b.1)) :
    (OffsetSorter.read s).1.isSome
      ↔ (∃ e ∈ s.head, e.1 = s.readOffset) ∧ ∀ e ∈ s.head, s.readOffset ≤ e.1 := by
  obtain ⟨head, ro, eo, mo⟩ := s
  cases head with
  | nil => simp [OffsetSorter.read]
  | cons x rest =>
    obtain ⟨o, d⟩ := x
    rw [List.pairwise_cons] at hs
    simp only [OffsetSorter.read]
    by_cases h : ro = o
    · rw [if_pos h]
      simp only [Option.isSome_some, true_iff]
      constructor
      · exact ⟨(o, d), List.mem_cons_self _ _, h.symm⟩
      · intro e he
        rcases List.mem_cons.mp he with hex | hexs
        · subst hex
          omega
        · have := hs.1 e hexs
          omega
    · rw [if_neg h]
      simp only [Option.isSome_none, Bool.false_eq_true, false_iff]
      rintro ⟨⟨e, he, heq⟩, hall⟩
      have hro_le_o : ro ≤ o := hall (o, d) (List.mem_cons_self _ _)
      rcases List.mem_cons.mp he with hex | hexs
      · subst hex
        exact h heq.symm
      · have := hs.1 e hexs
        omega

/-! ## Claim theorems. -/

/-- Stand-in cipher used to instantiate the abstract AES-GCM parameters in
concrete evaluations: identity "encryption" with a constant 16-byte tag. -/
def aesEncStub : List Nat → List Nat → List Nat → List Nat × List Nat :=
  fun _ _ p => (p, List.replicate 16 0)

def aesDecStub : List Nat → List Nat → List Nat → List Nat → Option (List Nat) :=
  fun _ _ tag ct => if tag = List.replicate 16 0 then some ct else none

/-- Stand-in 32-byte-output keyed hash for concrete evaluations. -/
def hmacStub : List Nat → List Nat → List Nat :=
  fun _ _ => List.replicate 32 0

/-- C1: for every packet whose fields are in-range unsigned integers and
whose frames are all of the known typed frame kinds, deserializing the
serialization (`Packet._deserializeUnencrypted ∘ Packet._serialize`) returns
a packet equal to the original: same sequence, same ilpPacketType, same
prepareAmount, and the same frames with the same field values in the same
order. -/
theorem claim_C1_packet_roundtrip (p : Packet) (hp : p.valid = true) :
    Packet.deserialize (Packet.serialize p) = some p := by
  have h := deserialize_serialize_append p []
  rwa [List.append_nil] at h

theorem claim_C1_witness :
    (Packet.valid ⟨5, 12, 7, [.connectionClose 1 [104, 105], .streamMoney 1 200,
      .streamData 2 3 [1, 2, 3], .connectionAssetDetails [65, 66, 67] 9,
      .streamReceipt 1 [0, 1]]⟩) = true
    ∧ Packet.deserialize (Packet.serialize ⟨5, 12, 7,
        [.connectionClose 1 [104, 105], .streamMoney 1 200,
          .streamData 2 3 [1, 2, 3], .connectionAssetDetails [65, 66, 67] 9,
          .streamReceipt 1 [0, 1]]⟩)
      = some ⟨5, 12, 7, [.connectionClose 1 [104, 105], .streamMoney 1 200,
          .streamData 2 3 [1, 2, 3], .connectionAssetDetails [65, 66, 67] 9,
          .streamReceipt 1 [0, 1]]⟩ :=
  ⟨by decide, claim_C1_packet_roundtrip _ (by decide)⟩

/-- C2: for every key, every plaintext buffer list and every 12-byte IV, and
for every cipher pair satisfying the AES-GCM contract (ciphertext as long as
the plaintext, 16-byte tag, decryption inverting encryption),
`encrypt` returns `iv ‖ authTag(16) ‖ ciphertext`, its length exceeds the
total plaintext length by exactly 28 bytes, and
`decrypt(key, encrypt(key, …))` returns the plaintext. -/
theorem claim_C2_encrypt_decrypt
    (aesEnc : List Nat → List Nat → List Nat → List Nat × List Nat)
    (aesDec : List Nat → List Nat → List Nat → List Nat → Option (List Nat))
    (key iv : List Nat) (bs : List (List Nat))
    (hiv : iv.length = 12)
    (hct : ∀ k i p, (aesEnc k i p).1.length = p.length)
    (htag : ∀ k i p, (aesEnc k i p).2.length = 16)
    (hdec : ∀ k i p, aesDec k i (aesEnc k i p).2 (aesEnc k i p).1 = some p) :
    encrypt aesEnc key iv bs
      = iv ++ ((aesEnc key iv bs.flatten).2 ++ (aesEnc key iv bs.flatten).1)
    ∧ (encrypt aesEnc key iv bs).length = bs.flatten.length + 28
    ∧ decrypt aesDec key (encrypt aesEnc key iv bs) = some bs.flatten :=
  ⟨rfl,
    length_encrypt aesEnc key iv bs hiv (hct key iv bs.flatten) (htag key iv bs.flatten),
    decrypt_encrypt aesEnc aesDec key iv bs hiv (htag key iv bs.flatten)
      (hdec key iv bs.flatten)⟩

theorem claim_C2_witness :
    decrypt aesDecStub [7] (encrypt aesEncStub [7] (List.replicate 12 0) [[1, 2, 3]])
      = some [1, 2, 3] := by
  have h := (claim_C2_encrypt_decrypt aesEncStub aesDecStub [7] (List.replicate 12 0)
    [[1, 2, 3]] (by decide) (fun _ _ _ => rfl) (fun _ _ _ => rfl)
    (fun _ _ _ => by simp [aesEncStub, aesDecStub])).2.2
  simpa using h

/-- C4: inserting a frame whose type byte is not in the known catalog (for
example 0xFE) with arbitrary var-octet-string contents into a valid packet's
frame list before serialization yields a buffer that still deserializes
successfully, to exactly the recognized frames of the packet in their
original order: the unknown frame is skipped, not an error. -/
theorem claim_C4_unknown_frame_skipped (p : Packet) (hp : p.valid = true)
    (i t : Nat) (c : List Nat) (ht : knownFrameType t = false) :
    Packet.deserialize (p.serializeWithUnknownFrame i t c) = some p :=
  deserialize_serializeWithUnknownFrame p i t c ht

theorem claim_C4_witness :
    Packet.deserialize (Packet.serializeWithUnknownFrame
      ⟨0, 12, 0, [.streamMoney 1 1, .streamMaxData 2 9]⟩ 1 0xFE [9, 9, 9])
      = some ⟨0, 12, 0, [.streamMoney 1 1, .streamMaxData 2 9]⟩ :=
  claim_C4_unknown_frame_skipped _ (by decide) 1 0xFE [9, 9, 9] (by decide)

/-- C5: the spec's frame catalog entries 0x07 (`ConnectionAssetDetails`,
carrying assetCode and assetScale) and 0x17 (`StreamReceipt`, carrying
streamId and receipt) are decoded into typed frames rather than being
skipped as unknown types, both frame-by-frame and inside a packet. -/
theorem claim_C5_asset_details_and_receipt_frames
    (code : List Nat) (scale sid seq amt : Nat) (rcpt r : List Nat) :
    parseFrame ((0x07 :: writeVarOctetString (writeVarOctetString code ++ [scale])) ++ r)
      = some (some (.connectionAssetDetails code scale), r)
    ∧ parseFrame ((0x17 :: writeVarOctetString (writeVarUInt sid ++ writeVarOctetString rcpt)) ++ r)
      = some (some (.streamReceipt sid rcpt), r)
    ∧ Packet.deserialize (Packet.serialize
        ⟨seq, 12, amt, [.connectionAssetDetails code scale, .streamReceipt sid rcpt]⟩)
      = some ⟨seq, 12, amt, [.connectionAssetDetails code scale, .streamReceipt sid rcpt]⟩ := by
  refine ⟨parseFrame_writeTo (.connectionAssetDetails code scale) r,
    parseFrame_writeTo (.streamReceipt sid rcpt) r, ?_⟩
  have h := deserialize_serialize_append
    ⟨seq, 12, amt, [.connectionAssetDetails code scale, .streamReceipt sid rcpt]⟩ []
  rwa [List.append_nil] at h

/-- C6: for the offset reassembler, `read()` returns a chunk if and only if
the smallest queued offset equals `readOffset`, and then advances
`readOffset` by that chunk's length; consequently, for every list of
non-overlapping chunks whose offsets exactly tile `[0, L)`, pushing them in
any order and then repeatedly calling `read()` returns each chunk exactly
once, in ascending offset order, and their concatenation equals the original
`L` bytes. -/
theorem claim_C6_reassembler (s : OffsetSorter)
    (hs : s.head.Pairwise (fun a b => a.1 ≤ b.1))
    (cs S : List (Nat × List Nat)) (eo : Int) (mo : Nat)
    (hperm : cs.Perm S) (hchain : chainFromB 0 S = true) :
    ((OffsetSorter.read s).1.isSome
      ↔ (∃ e ∈ s.head, e.1 = s.readOffset) ∧ ∀ e ∈ s.head, s.readOffset ≤ e.1)
    ∧ (∀ d s', OffsetSorter.read s = (some d, s')
        → s'.readOffset = s.readOffset + d.length)
    ∧ OffsetSorter.drain (OffsetSorter.pushMany ⟨[], 0, eo, mo⟩ cs) = S.map Prod.snd
    ∧ (OffsetSorter.drain (OffsetSorter.pushMany ⟨[], 0, eo, mo⟩ cs)).flatten
        = (S.map Prod.snd).flatten := by
  refine ⟨read_min_characterization s hs, ?_, pushMany_drain cs S eo mo hperm hchain, ?_⟩
  · intro d s' hread
    obtain ⟨head, ro, eo', mo'⟩ := s
    cases head with
    | nil => simp [OffsetSorter.read] at hread
    | cons x rest =>
      obtain ⟨o, d'⟩ := x
      simp only [OffsetSorter.read] at hread
      by_cases h : ro = o
      · rw [if_pos h] at hread
        obtain ⟨hd, hs'⟩ := Prod.mk.injEq .. ▸ hread
        cases hd
        cases hs'
        simp [h]
      · rw [if_neg h] at hread
        cases hread
  · rw [pushMany_drain cs S eo mo hperm hchain]

theorem claim_C6_witness :
    OffsetSorter.drain (OffsetSorter.pushMany ⟨[], 0, -1, 0⟩
      [(3, [40, 50]), (0, [10, 20, 30])]) = [[10, 20, 30], [40, 50]] :=
  (claim_C6_reassembler ⟨[(2, [5])], 2, -1, 0⟩ (by decide)
    [(3, [40, 50]), (0, [10, 20, 30])] [(0, [10, 20, 30]), (3, [40, 50])]
    (-1) 0 (by decide) (by decide)).2.2.1

/-- C9 (counterexample): pushing the duplicate chunk `(0, [1])` a second
time changes the results of subsequent `read()` calls — with the duplicate
the drain stops after the first chunk, without it both chunks are read. -/
theorem claim_C9_counterexample :
    ¬ (OffsetSorter.drain (OffsetSorter.pushMany OffsetSorter.empty
        [(0, [1]), (0, [1]), (1, [2])])
      = OffsetSorter.drain (OffsetSorter.pushMany OffsetSorter.empty
        [(0, [1]), (1, [2])])) := by
  decide

/-- C9 (amended): pushing the same `(offset, data)` chunk twice is not
idempotent: the duplicate entry is queued again, and once the first copy has
been read the duplicate's offset no longer matches `readOffset`, so it
blocks all subsequent reads.  Concretely, for nonempty `d`, draining after
pushes `(0, d), (d.length, e)` returns `[d, e]`, while draining after the
duplicated pushes `(0, d), (0, d), (d.length, e)` returns only `[d]`. -/
theorem claim_C9_amended_duplicate_blocks (d e : List Nat) (hd : d ≠ []) :
    OffsetSorter.drain (OffsetSorter.pushMany OffsetSorter.empty
      [(0, d), (d.length, e)]) = [d, e]
    ∧ OffsetSorter.drain (OffsetSorter.pushMany OffsetSorter.empty
      [(0, d), (0, d), (d.length, e)]) = [d] := by
  have hlen : ¬ d.length = 0 := fun h => hd (List.length_eq_zero.mp h)
  constructor
  · simp [OffsetSorter.pushMany, OffsetSorter.push, OffsetSorter.insertEntry,
      OffsetSorter.drain, OffsetSorter.drainList, OffsetSorter.empty]
  · simp [OffsetSorter.pushMany, OffsetSorter.push, OffsetSorter.insertEntry,
      OffsetSorter.drain, OffsetSorter.drainList, OffsetSorter.empty, hlen]

theorem claim_C9_witness :
    OffsetSorter.drain (OffsetSorter.pushMany OffsetSorter.empty
      [(0, [1]), (1, [2])]) = [[1], [2]]
    ∧ OffsetSorter.drain (OffsetSorter.pushMany OffsetSorter.empty
      [(0, [1]), (0, [1]), (1, [2])]) = [[1]] :=
  claim_C9_amended_duplicate_blocks [1] [2] (by decide)

theorem decodeReceipt_ok (nonce : List Nat) (sid tr : Nat) (tail : List Nat)
    (hn : nonce.length = 16)
    (hlen : (1 :: (nonce ++ (sid :: (fixedBytesBE 8 tr ++ tail)))).length = 58) :
    decodeReceipt (1 :: (nonce ++ (sid :: (fixedBytesBE 8 tr ++ tail))))
      = .ok ⟨1, nonce, sid, fromBytesBE (fixedBytesBE 8 tr)⟩ := by
  unfold decodeReceipt
  rw [if_neg (by rw [hlen]; simp)]
  show (match readOctets 16 (nonce ++ (sid :: (fixedBytesBE 8 tr ++ tail))) with
    | some (nonce', r2) =>
      match readUInt8 r2 with
      | some (sid', r3) =>
        match readOctets 8 r3 with
        | some (trb, _) =>
          (Except.ok ⟨1, nonce', sid', fromBytesBE trb⟩ : Except String DecodedReceipt)
        | none => Except.error "out of bounds"
      | none => Except.error "out of bounds"
    | none => Except.error "out of bounds")
    = Except.ok ⟨1, nonce, sid, fromBytesBE (fixedBytesBE 8 tr)⟩
  have hoct16 := readOctets_append nonce (sid :: (fixedBytesBE 8 tr ++ tail))
  rw [hn] at hoct16
  rw [hoct16]
  show (match readOctets 8 (fixedBytesBE 8 tr ++ tail) with
    | some (trb, _) =>
      (Except.ok ⟨1, nonce, sid, fromBytesBE trb⟩ : Except String DecodedReceipt)
    | none => Except.error "out of bounds")
    = Except.ok ⟨1, nonce, sid, fromBytesBE (fixedBytesBE 8 tr)⟩
  have hoct8 := readOctets_append (fixedBytesBE 8 tr) tail
  rw [length_fixedBytesBE] at hoct8
  rw [hoct8]

/-- C3: for every 16-byte nonce, 32-byte secret, byte-range streamId and
u64 totalReceived, `createReceipt` returns exactly 58 bytes laid out as
version 1, the nonce, the streamId as a single byte, totalReceived as a
big-endian u64, and the 32-byte HMAC of the first 26 bytes under the secret;
`decodeReceipt` recovers version, nonce, streamId and totalReceived. -/
theorem claim_C3_receipt_layout (hmac : List Nat → List Nat → List Nat)
    (nonce secret : List Nat) (sid tr : Nat)
    (hn : nonce.length = 16) (hs : secret.length = 32)
    (hsid : sid < 256) (htr : tr < 2 ^ 64)
    (hhmac : ∀ k m, (hmac k m).length = 32) :
    ∃ b, createReceipt hmac nonce sid tr secret = .ok b
      ∧ b.length = 58
      ∧ b.take 1 = [1]
      ∧ (b.drop 1).take 16 = nonce
      ∧ (b.drop 17).take 1 = [sid]
      ∧ (b.drop 18).take 8 = fixedBytesBE 8 tr
      ∧ b.drop 26 = hmac secret (b.take 26)
      ∧ decodeReceipt b = .ok ⟨1, nonce, sid, tr⟩ := by
  refine ⟨(RECEIPT_VERSION :: (nonce ++ sid :: fixedBytesBE 8 tr))
      ++ hmac secret (RECEIPT_VERSION :: (nonce ++ sid :: fixedBytesBE 8 tr)),
    createReceipt_ok hmac nonce sid tr secret hn hs, ?_⟩
  have htail := hhmac secret (RECEIPT_VERSION :: (nonce ++ sid :: fixedBytesBE 8 tr))
  generalize hgen : hmac secret (RECEIPT_VERSION :: (nonce ++ sid :: fixedBytesBE 8 tr))
    = tail at htail ⊢
  refine ⟨?_, ?_, ?_, ?_, ?_, ?_, ?_⟩
  · rw [List.length_append, receiptMessage_length nonce sid tr hn, htail]
  · have hb : (RECEIPT_VERSION :: (nonce ++ sid :: fixedBytesBE 8 tr)) ++ tail
        = [1] ++ (nonce ++ ([sid] ++ (fixedBytesBE 8 tr ++ tail))) := by
      simp [RECEIPT_VERSION, List.append_assoc]
    rw [hb, List.take_left' (show ([1] : List Nat).length = 1 from rfl)]
  · have hb : (RECEIPT_VERSION :: (nonce ++ sid :: fixedBytesBE 8 tr)) ++ tail
        = [1] ++ (nonce ++ ([sid] ++ (fixedBytesBE 8 tr ++ tail))) := by
      simp [RECEIPT_VERSION, List.append_assoc]
    rw [hb, List.drop_left' (show ([1] : List Nat).length = 1 from rfl),
      List.take_left' hn]
  · have hb : (RECEIPT_VERSION :: (nonce ++ sid :: fixedBytesBE 8 tr)) ++ tail
        = (1 :: nonce) ++ ([sid] ++ (fixedBytesBE 8 tr ++ tail)) := by
      simp [RECEIPT_VERSION, List.append_assoc]
    rw [hb, List.drop_left' (show (1 :: nonce).length = 17 from by simp [hn]),
      List.take_left' (show ([sid] : List Nat).length = 1 from rfl)]
  · have hb : (RECEIPT_VERSION :: (nonce ++ sid :: fixedBytesBE 8 tr)) ++ tail
        = ((1 :: nonce) ++ [sid]) ++ (fixedBytesBE 8 tr ++ tail) := by
      simp [RECEIPT_VERSION, List.append_assoc]
    rw [hb, List.drop_left' (show ((1 :: nonce) ++ [sid]).length = 18 from by simp [hn]),
      List.take_left' (length_fixedBytesBE 8 tr)]
  · rw [List.drop_left' (receiptMessage_length nonce sid tr hn),
      List.take_left' (receiptMessage_length nonce sid tr hn), hgen]
  · have hb : (RECEIPT_VERSION :: (nonce ++ sid :: fixedBytesBE 8 tr)) ++ tail
        = 1 :: (nonce ++ (sid :: (fixedBytesBE 8 tr ++ tail))) := by
      simp [RECEIPT_VERSION, List.append_assoc]
    have hlen58 : (1 :: (nonce ++ (sid :: (fixedBytesBE 8 tr ++ tail)))).length = 58 := by
      simp [List.length_cons, List.length_append, hn, length_fixedBytesBE, htail]
    rw [hb, decodeReceipt_ok nonce sid tr tail hn hlen58, fromBytesBE_fixedBytesBE]
    have h64 : (256 : Nat) ^ 8 = 2 ^ 64 := by norm_num
    rw [h64, Nat.mod_eq_of_lt htr]

theorem claim_C3_witness :
    ∃ b, createReceipt hmacStub (List.replicate 16 0) 1 500 (List.replicate 32 0) = .ok b
      ∧ b.length = 58
      ∧ b.take 1 = [1]
      ∧ (b.drop 1).take 16 = List.replicate 16 0
      ∧ (b.drop 17).take 1 = [1]
      ∧ (b.drop 18).take 8 = fixedBytesBE 8 500
      ∧ b.drop 26 = hmacStub (List.replicate 32 0) (b.take 26)
      ∧ decodeReceipt b = .ok ⟨1, List.replicate 16 0, 1, 500⟩ :=
  claim_C3_receipt_layout hmacStub (List.replicate 16 0) (List.replicate 32 0) 1 500
    (by decide) (by decide) (by decide) (by decide) (fun _ _ => rfl)

/-- C7: `decodeReceipt` fails for every buffer whose length is not 58;
`verifyReceipt` returns false whenever the length is not 58, the version
byte is not 1, or the last 32 bytes differ from the HMAC of the first 26
bytes under the secret, and returns true for a receipt created with the
same secret. -/
theorem claim_C7_receipt_errors (hmac : List Nat → List Nat → List Nat)
    (secret : List Nat) (hhmac : ∀ k m, (hmac k m).length = 32)
    (hsec : secret.length = 32) :
    (∀ r : List Nat, r.length ≠ 58 → decodeReceipt r = .error "receipt must be 58 bytes")
    ∧ (∀ r : List Nat, (r.length ≠ 58 ∨ r.take 1 ≠ [1]
        ∨ r.drop 26 ≠ hmac secret (r.take 26)) → verifyReceipt hmac r secret = false)
    ∧ (∀ (nonce : List Nat) (sid tr : Nat) (b : List Nat), nonce.length = 16 →
        createReceipt hmac nonce sid tr secret = .ok b →
        verifyReceipt hmac b secret = true) := by
  refine ⟨?_, ?_, ?_⟩
  · intro r hr
    unfold decodeReceipt
    rw [if_pos hr]
  · intro r hr
    unfold verifyReceipt
    by_cases hl : r.length = 58
    · rw [if_neg (by simp [hl])]
      cases r with
      | nil => simp at hl
      | cons v T =>
        show (if v ≠ RECEIPT_VERSION then false
          else decide ((v :: T).drop 26 = hmac secret ((v :: T).take 26))) = false
        rcases hr with hr1 | hr2 | hr3
        · exact absurd hl hr1
        · have hv : v ≠ RECEIPT_VERSION := by
            intro hEq
            exact hr2 (by simp [hEq, RECEIPT_VERSION])
          rw [if_pos hv]
        · by_cases hv : v = RECEIPT_VERSION
          · rw [if_neg (by simp [hv])]
            rw [decide_eq_false_iff_not]
            exact hr3
          · rw [if_pos hv]
    · rw [if_pos hl]
  · intro nonce sid tr b hn hok
    rw [createReceipt_ok hmac nonce sid tr secret hn hsec] at hok
    injection hok with hb
    subst hb
    unfold verifyReceipt
    rw [if_neg (by
      rw [List.length_append, receiptMessage_length nonce sid tr hn,
        hhmac secret (RECEIPT_VERSION :: (nonce ++ sid :: fixedBytesBE 8 tr))]
      simp)]
    show (if RECEIPT_VERSION ≠ RECEIPT_VERSION then false
      else decide (((RECEIPT_VERSION :: (nonce ++ sid :: fixedBytesBE 8 tr))
          ++ hmac secret (RECEIPT_VERSION :: (nonce ++ sid :: fixedBytesBE 8 tr))).drop 26
        = hmac secret (((RECEIPT_VERSION :: (nonce ++ sid :: fixedBytesBE 8 tr))
          ++ hmac secret (RECEIPT_VERSION :: (nonce ++ sid :: fixedBytesBE 8 tr))).take 26)))
      = true
    rw [if_neg (by simp), List.drop_left' (receiptMessage_length nonce sid tr hn),
      List.take_left' (receiptMessage_length nonce sid tr hn)]
    simp

theorem claim_C7_witness :
    decodeReceipt [1, 2, 3] = .error "receipt must be 58 bytes"
    ∧ verifyReceipt hmacStub [1, 2, 3] (List.replicate 32 0) = false :=
  ⟨(claim_C7_receipt_errors hmacStub (List.replicate 32 0) (fun _ _ => rfl)
      (by decide)).1 [1, 2, 3] (by decide),
    (claim_C7_receipt_errors hmacStub (List.replicate 32 0) (fun _ _ => rfl)
      (by decide)).2.1 [1, 2, 3] (Or.inl (by decide))⟩

/-- C8: on a connected server, `generateAddressAndSecret` fails with the
exact message about allowed characters for every connectionTag containing a
character outside `[A-Za-z0-9~_-]`, and for every valid (nonempty) tag it
returns `destinationAccount = serverAccount ++ "." ++ token` where `token`
is the base64url of the 18 random token bytes suffixed with `"~" ++ tag`. -/
theorem claim_C8_connection_tag (hmac : List Nat → List Nat → List Nat)
    (serverSecret : List Nat) (serverAccount : String) (tokenBytes : List Nat)
    (hlen : tokenBytes.length = 18) :
    (∀ tag : String, (∃ ch ∈ tag.toList, isConnTagChar ch = false) →
      generateAddressAndSecret hmac serverSecret true serverAccount tokenBytes (some tag)
        = .error "connectionTag can only include ASCII characters a-z, A-Z, 0-9, \"_\", \"-\", and \"~\"")
    ∧ (∀ tag : String, tag ≠ "" → (∀ ch ∈ tag.toList, isConnTagChar ch = true) →
      generateAddressAndSecret hmac serverSecret true serverAccount tokenBytes (some tag)
        = .ok (serverAccount ++ "." ++ (base64url tokenBytes ++ "~" ++ tag),
            hmac (hmac serverSecret (asciiBytes "ilp_stream_shared_secret"))
              (asciiBytes (base64url tokenBytes ++ "~" ++ tag)))) := by
  constructor
  · rintro tag ⟨ch, hch, hbad⟩
    have htagne : tag.isEmpty = false := by
      rw [← Bool.not_eq_true, String.isEmpty_iff]
      intro h
      subst h
      simp at hch
    have hct : connTagTest tag = false := by
      unfold connTagTest
      rw [List.all_eq_false.mpr ⟨ch, hch, by simp [hbad]⟩]
      simp
    simp [generateAddressAndSecret, htagne, hct]
  · intro tag hne hall
    have htagne : tag.isEmpty = false := by
      rw [← Bool.not_eq_true, String.isEmpty_iff]
      exact hne
    have hct : connTagTest tag = true := by
      unfold connTagTest
      rw [htagne, List.all_eq_true.mpr hall]
      simp
    simp [generateAddressAndSecret, htagne, hct]

theorem claim_C8_witness :
    generateAddressAndSecret hmacStub (List.replicate 32 0) true "test.server"
      (List.replicate 18 0) (some "bad\n")
      = .error "connectionTag can only include ASCII characters a-z, A-Z, 0-9, \"_\", \"-\", and \"~\""
    ∧ generateAddressAndSecret hmacStub (List.replicate 32 0) true "test.server"
      (List.replicate 18 0) (some "tag-1")
      = .ok ("test.server" ++ "." ++ (base64url (List.replicate 18 0) ++ "~" ++ "tag-1"),
          hmacStub (hmacStub (List.replicate 32 0) (asciiBytes "ilp_stream_shared_secret"))
            (asciiBytes (base64url (List.replicate 18 0) ++ "~" ++ "tag-1"))) :=
  ⟨(claim_C8_connection_tag hmacStub (List.replicate 32 0) "test.server"
      (List.replicate 18 0) (by decide)).1 "bad\n" ⟨'\n', by decide, by decide⟩,
    (claim_C8_connection_tag hmacStub (List.replicate 32 0) "test.server"
      (List.replicate 18 0) (by decide)).2 "tag-1" (by decide) (by decide)⟩

/-- C10: `_deserializeUnencrypted` reads exactly `numFrames` frames and
ignores trailing bytes, so appending any run of zero bytes to a serialized
packet leaves deserialization unchanged; consequently, when
`padPacketToSize ≥ serialized length + 28`, `serializeAndEncrypt` produces
exactly `padPacketToSize` bytes which still decrypt and deserialize to the
original packet. -/
theorem claim_C10_padding (p : Packet) (hp : p.valid = true) (z : Nat)
    (aesEnc : List Nat → List Nat → List Nat → List Nat × List Nat)
    (aesDec : List Nat → List Nat → List Nat → List Nat → Option (List Nat))
    (key iv : List Nat) (pad : Nat)
    (hiv : iv.length = 12)
    (hct : ∀ k i q, (aesEnc k i q).1.length = q.length)
    (htag : ∀ k i q, (aesEnc k i q).2.length = 16)
    (hdec : ∀ k i q, aesDec k i (aesEnc k i q).2 (aesEnc k i q).1 = some q)
    (hpad : p.serialize.length + 28 ≤ pad) :
    Packet.deserialize (Packet.serialize p ++ List.replicate z 0) = some p
    ∧ (Packet.serializeAndEncrypt aesEnc key iv p (some pad)).length = pad
    ∧ Packet.decryptAndDeserialize aesDec key
        (Packet.serializeAndEncrypt aesEnc key iv p (some pad)) = some p := by
  have hkey : Packet.serializeAndEncrypt aesEnc key iv p (some pad)
      = encrypt aesEnc key iv (p.serialize
          :: (List.replicate ((pad - 28 - p.serialize.length) / 32) (List.replicate 32 0)
            ++ [List.replicate ((pad - 28 - p.serialize.length) % 32) 0])) := rfl
  have hflat := padding_flatten p.serialize (pad - 28 - p.serialize.length)
  refine ⟨deserialize_serialize_append p _, ?_, ?_⟩
  · rw [hkey, length_encrypt aesEnc key iv _ hiv (hct key iv _) (htag key iv _), hflat,
      List.length_append, List.length_replicate]
    omega
  · unfold Packet.decryptAndDeserialize
    rw [hkey, decrypt_encrypt aesEnc aesDec key iv _ hiv (htag key iv _) (hdec key iv _)]
    show Packet.deserialize ((p.serialize
      :: (List.replicate ((pad - 28 - p.serialize.length) / 32) (List.replicate 32 0)
        ++ [List.replicate ((pad - 28 - p.serialize.length) % 32) 0])).flatten) = some p
    rw [hflat]
    exact deserialize_serialize_append p _

theorem claim_C10_witness :
    (Packet.serializeAndEncrypt aesEncStub [7] (List.replicate 12 0)
      ⟨0, 12, 0, []⟩ (some 64)).length = 64
    ∧ Packet.decryptAndDeserialize aesDecStub [7]
        (Packet.serializeAndEncrypt aesEncStub [7] (List.replicate 12 0)
          ⟨0, 12, 0, []⟩ (some 64)) = some ⟨0, 12, 0, []⟩
    ∧ Packet.deserialize (Packet.serialize ⟨0, 12, 0, []⟩ ++ List.replicate 5 0)
        = some ⟨0, 12, 0, []⟩ := by
  have h := claim_C10_padding ⟨0, 12, 0, []⟩ (by decide) 5 aesEncStub aesDecStub [7]
    (List.replicate 12 0) 64 (by decide) (fun _ _ _ => rfl) (fun _ _ _ => rfl)
    (fun _ _ _ => by simp [aesEncStub, aesDecStub]) (by decide)
  exact ⟨h.2.1, h.2.2, h.1⟩
